import Mathlib

/-!
Shallow embedding of the pole-claim engine of this repository
(`src/config.py`, `src/pole.py`, `src/models.py`) together with a
verification of the specification's claims about it.

Conventions of the embedding:
* Python dicts keyed by pole-type name become association lists
  `List (String × PoleConfig)` in the source's insertion order.
* Python `datetime` instants are represented by the local (Madrid) civil
  hour and minute, already converted at the boundary, exactly as
  `check_pole_message` converts the instant once with `astimezone`.
* Points are rationals (`ℚ`), since the catalog uses fractional values.
* `random.randint(a, b)` is modelled by `randint a b seed`, which returns
  `a + seed % (b - a + 1)`; the seed is an explicit input, so every
  draw is a parameter of the functions that draw.
* Message texts are modelled by the data that varies in them (attempt
  number, remaining count, masked string), not by the rendered string.
-/

namespace PoleBot

/-- Tagged time-condition variant, embedding the `time_condition` dicts of
`src/config.py` (types `daily_reset`, `time_range`, `exact_time`,
`counter_based`). -/
inductive TimeCondition where
  | dailyReset (startHour : Nat)
  | timeRange (startHour endHour : Nat)
  | exactTime (targets : List (Nat × Nat))
  | counterBased (counter : Nat)
deriving Repr, DecidableEq

/-- Embedding of one pole-type configuration dict of `src/config.py`:
trigger patterns (kept verbatim, anchored as in the source), point value,
optional order (slot number) and optional time condition. -/
structure PoleConfig where
  triggers : List String
  points : ℚ
  order : Option Nat := none
  timeCondition : Option TimeCondition := none
deriving Repr, DecidableEq

/-- Embedding of `POLE_TYPES` of `src/config.py` (ordered, time-gated
pole families), in dict insertion order. -/
def POLE_TYPES : List (String × PoleConfig) :=
  [ ("Pole",
      { triggers := ["^pole$", "^oro$"], points := 10, order := some 1,
        timeCondition := some (.dailyReset 0) }),
    ("Subpole",
      { triggers := ["^subpole$", "^plata$"], points := 5, order := some 2,
        timeCondition := some (.dailyReset 0) }),
    ("Subsubpole",
      { triggers := ["^subsubpole$", "^bronce$"], points := 5/2, order := some 3,
        timeCondition := some (.dailyReset 0) }),
    ("Pole Canaria",
      { triggers := ["^pole canaria$", "^oro canario$"], points := 5, order := some 1,
        timeCondition := some (.dailyReset 1) }),
    ("Subpole Canaria",
      { triggers := ["^subpole canaria$", "^plata canario$"], points := 5/2, order := some 2,
        timeCondition := some (.dailyReset 1) }),
    ("Subsubpole Canaria",
      { triggers := ["^subsubpole canaria$", "^bronce canario$"], points := 5/4, order := some 3,
        timeCondition := some (.dailyReset 1) }),
    ("Pole Andaluza",
      { triggers := ["^pole andaluza$", "^oro andaluz$"], points := 1/2, order := some 1,
        timeCondition := some (.timeRange 12 16) }),
    ("Subpole Andaluza",
      { triggers := ["^subpole andaluza$", "^plata andaluza$"], points := 1/4, order := some 2,
        timeCondition := some (.timeRange 12 16) }),
    ("Subsubpole Andaluza",
      { triggers := ["^subsubpole andaluza$", "^bronce andaluz$"], points := 1/10, order := some 3,
        timeCondition := some (.timeRange 12 16) }) ]

/-- Embedding of `TIME_SPECIFIC_POLES` of `src/config.py`. -/
def TIME_SPECIFIC_POLES : List (String × PoleConfig) :=
  [ ("Hora Porro",
      { triggers := ["^hora porro$"], points := 4,
        timeCondition := some (.exactTime [(4, 20), (16, 20)]) }),
    ("Hora π",
      { triggers := ["^hora pi$", "^hora π$"], points := 3,
        timeCondition := some (.exactTime [(3, 14), (15, 14)]) }),
    ("Pole Mina",
      { triggers := ["^pole mina$"], points := 0,
        timeCondition := some (.counterBased 20) }) ]

/-- Embedding of `ADDITIONAL_POLE_TYPES` of `src/config.py` (standard
poles without order or time conditions). -/
def ADDITIONAL_POLE_TYPES : List (String × PoleConfig) :=
  [ ("Fracapole", { triggers := ["^fracapole$", "^fail$"], points := 1 }),
    ("Poleet", { triggers := ["^poleet$"], points := 1 }),
    ("Poeet", { triggers := ["^poeet$"], points := 1 }),
    ("Polen", { triggers := ["^polen$"], points := 1/10 }),
    ("Mastil", { triggers := ["^mastil$", "^mástil$"], points := 0 }),
    ("Neopole", { triggers := ["^neopole$"], points := 1/20 }),
    ("Pole Binaria", { triggers := ["^pole binaria$"], points := 1/20 }),
    ("Pole Boix", { triggers := ["^pole boix$"], points := 1/20 }),
    ("Pole Básica", { triggers := ["^pole básica$"], points := 1/20 }),
    ("Pole Cafelito", { triggers := ["^pole cafelito$"], points := 1/2 }),
    ("Pole Clásica", { triggers := ["^pole clásica$"], points := 1/20 }),
    ("Pole Contemporánea", { triggers := ["^pole contemporánea$"], points := 1/20 }),
    ("Pole Cotizante", { triggers := ["^pole cotizante$"], points := 3/2 }),
    ("Pole CRX", { triggers := ["^pole crx$"], points := 1/10 }),
    ("Pole Crítica", { triggers := ["^pole crítica$"], points := 1/20 }),
    ("Pole Eterna", { triggers := ["^pole eterna$"], points := 1/20 }),
    ("Pole Fran", { triggers := ["^pole fran$"], points := 1/20 }),
    ("Pole Germà", { triggers := ["^pole germà$", "^pole germa$"], points := 1/20 }),
    ("Pole Insomnio", { triggers := ["^pole insomnio$"], points := 3/10 }),
    ("Pole Letal", { triggers := ["^pole letal$"], points := 1/20 }),
    ("Pole Magnas", { triggers := ["^pole magnas$"], points := 1/20 }),
    ("Alarma Magnas", { triggers := ["^alarma magnas$"], points := 1/2 }),
    ("Pole Mistica", { triggers := ["^pole mística$"], points := 1/20 }),
    ("Pole Montero", { triggers := ["^pole montero$"], points := 1/20 }),
    ("Pole Máxima", { triggers := ["^pole máxima$"], points := 1/20 }),
    ("Pole Mínima", { triggers := ["^pole mínima$"], points := 1/20 }),
    ("Pole Presko", { triggers := ["^pole presko$"], points := 1/20 }),
    ("Pole Toakiza", { triggers := ["^pole toakiza$"], points := 1 }),
    ("Pole Ucraniana", { triggers := ["^pole ucraniana$"], points := 1/20 }),
    ("Polerdaka", { triggers := ["^polerdaka$"], points := 1/20 }),
    ("Polerdakardamenaka", { triggers := ["^polerdakardamenaka$"], points := 1/20 }),
    ("Polerdamen", { triggers := ["^polerdamen$"], points := 1/20 }),
    ("Postpole", { triggers := ["^postpole$"], points := 1/20 }),
    ("Prepole", { triggers := ["^prepole$"], points := 1/20 }),
    ("Pseudopole", { triggers := ["^pseudopole$"], points := 1/20 }),
    ("Pole Cuck", { triggers := ["^pole cuck$"], points := 1/100 }) ]

/-- Embedding of `ALL_POLE_TYPES = {**POLE_TYPES, **TIME_SPECIFIC_POLES,
**ADDITIONAL_POLE_TYPES}`: the three dicts have pairwise distinct keys, so
the merge is concatenation in insertion order. -/
def ALL_POLE_TYPES : List (String × PoleConfig) :=
  POLE_TYPES ++ TIME_SPECIFIC_POLES ++ ADDITIONAL_POLE_TYPES

/-- Dict lookup `ALL_POLE_TYPES.get(name)`. -/
def lookupConfig (name : String) : Option PoleConfig :=
  (ALL_POLE_TYPES.find? (fun p => p.1 == name)).map (·.2)

/-- Embedding of `check_time_condition` of `src/pole.py`: the instant is
given by its local (Madrid) hour and minute, as the source converts the
message date once before any check. -/
def check_time_condition (tc : TimeCondition) (hour minute : Nat) : Bool :=
  match tc with
  | .exactTime targets =>
      targets.any (fun t => t.1 == hour && t.2 == minute)
  | .timeRange startHour endHour =>
      decide (startHour ≤ hour) && decide (hour < endHour)
  | .dailyReset _ => true
  | .counterBased _ => true

/-! ### TriggerClassifier (`check_pole_message`, `src/pole.py`) -/

/-- Python whitespace class as used by `str.strip` and the regex `\s`
(ASCII part; the embedding treats text as ASCII-or-verbatim unicode). -/
def pyIsSpace (c : Char) : Bool :=
  c == ' ' || c == '\t' || c == '\n' || c == '\r' || c == '\x0b' || c == '\x0c'

/-- Embedding of Python `str.strip()`. -/
def pyStrip (s : List Char) : List Char :=
  ((s.dropWhile pyIsSpace).reverse.dropWhile pyIsSpace).reverse

/-- Embedding of `message_text.strip().lower()` in `check_pole_message`
(`src/pole.py` line 130); case folding is modelled on ASCII letters. -/
def normalize (s : List Char) : List Char :=
  (pyStrip s).map Char.toLower

/-- Embedding of the anchoring step of `src/config.py` lines 191-195: a
trigger pattern gets `^` and `$` added when missing (every catalog trigger
already carries both). -/
def anchorPattern (p : List Char) : List Char :=
  let q := if p.head? == some '^' then p else '^' :: p
  if q.getLast? == some '$' then q else q ++ ['$']

/-- The literal text between the anchors of a trigger pattern. Every
trigger in the catalog is an anchored literal with no regex
metacharacters, so `compiled.fullmatch(text)` succeeds iff `text` equals
this literal. -/
def literalOf (p : List Char) : List Char :=
  ((anchorPattern p).drop 1).dropLast

/-- Embedding of `COMPILED_TRIGGERS` of `src/config.py`: one entry per
(trigger, pole type), in catalog order. -/
def COMPILED_TRIGGERS : List (List Char × String) :=
  (ALL_POLE_TYPES.map (fun nc => nc.2.triggers.map (fun t => (t.toList, nc.1)))).flatten

/-- Embedding of `CLOWN_POLE_PATTERN.fullmatch`, pattern
`^pole\s+\S+.*$` (`src/pole.py` line 39): the text starts with `pole`,
then at least one whitespace, then at least one non-whitespace, and the
remainder after the maximal non-whitespace run contains no newline
(`.` does not match a newline, and `fullmatch` must span the string).
Any shorter match of the non-whitespace run leaves a tail whose extra
characters are non-whitespace, hence newline-free exactly when this one
is, so the maximal-run characterization is exact. -/
def isClownPole (s : List Char) : Bool :=
  match s with
  | 'p' :: 'o' :: 'l' :: 'e' :: rest =>
      match rest with
      | [] => false
      | c :: _ =>
          pyIsSpace c &&
          (let afterWs := rest.dropWhile pyIsSpace
           !afterWs.isEmpty &&
           !((afterWs.dropWhile (fun d => !pyIsSpace d)).contains '\n'))
  | _ => false

/-- Classification outcome of `check_pole_message`: which branch of the
function produces the return value. -/
inductive ClassifyResult where
  | claimMatch (poleType : String)
  | clownPole
  | reaction (kind : String)
  | noMatch
deriving Repr, DecidableEq

/-- First trigger whose pattern fully matches the normalized text, in
catalog order (the `for pattern, pole_type in COMPILED_TRIGGERS` loop of
`check_pole_message`). -/
def firstTriggerMatch (text : List Char) : Option String :=
  (COMPILED_TRIGGERS.find? (fun pt => text == literalOf pt.1)).map (·.2)

/-- First cosmetic-reaction pattern matching the normalized text
(the `for pattern, reaction_type in COMPILED_REACTIONS` loop). The
reaction table `MESSAGE_REACTIONS` is imported by `src/pole.py` but its
definition is not part of the sources, so the compiled table is a
parameter: a list of (pattern-as-predicate, reaction type). -/
def firstReactionMatch (reactions : List ((List Char → Bool) × String))
    (text : List Char) : Option String :=
  (reactions.find? (fun r => r.1 text)).map (·.2)

/-- Embedding of the classification skeleton of `check_pole_message`
(`src/pole.py` lines 110-276): normalize, then claim triggers in catalog
order, then the clown-pole fallback, then cosmetic reactions, else no
match. Each branch of the source returns as soon as it matches, so the
classification decision is exactly this precedence. -/
def classifyMessage (reactions : List ((List Char → Bool) × String))
    (text : List Char) : ClassifyResult :=
  let normalized := normalize text
  match firstTriggerMatch normalized with
  | some pt => .claimMatch pt
  | none =>
      if isClownPole normalized then .clownPole
      else
        match firstReactionMatch reactions normalized with
        | some k => .reaction k
        | none => .noMatch

/-! ### RaceArbiter (`process_pole_attempt`, `check_order_condition`) -/

/-- Minimal pole record as created by `Pole.create` (`src/models.py`
lines 358-395): user, pole type and points; the group and calendar day
are implicit, since a `DayState` below holds one (group, day). -/
structure PoleRecord where
  userId : Nat
  poleType : String
  points : ℚ
deriving Repr, DecidableEq

/-- Per-(group, day) persistent state seen by the race arbiter: the pole
records created that day in creation order. Both the `poles` collection
and the `poles_cache` claimed map of `src/models.py` record exactly the
successful creations, so one list embeds the data both paths of
`check_order_condition` read. -/
structure DayState where
  claimed : List PoleRecord
deriving Repr, DecidableEq

/-- Derived family start hour of `check_order_condition` (`src/pole.py`
lines 453-457): the `start_hour` of a `daily_reset` time condition when
there is one, and 0 otherwise (also for `time_range`, `exact_time` and
`counter_based` conditions). -/
def derivedStartHour (cfg : PoleConfig) : Nat :=
  match cfg.timeCondition with
  | some (.dailyReset h) => h
  | _ => 0

/-- Family filter of `check_order_condition`: the day's claimed poles
whose config carries an `order` and whose derived start hour equals the
given one, paired with their configured order. -/
def familyPoles (claimed : List PoleRecord) (startHour : Nat) :
    List (PoleRecord × Nat) :=
  claimed.filterMap (fun r =>
    match lookupConfig r.poleType with
    | some c =>
        match c.order with
        | some o =>
            if derivedStartHour c == startHour then some (r, o) else none
        | none => none
    | none => none)

/-- Users holding a slot in the family. -/
def famUsers (claimed : List PoleRecord) (startHour : Nat) : List Nat :=
  (familyPoles claimed startHour).map (fun p => p.1.userId)

/-- Slot numbers granted in the family, in grant order. -/
def famOrders (claimed : List PoleRecord) (startHour : Nat) : List Nat :=
  (familyPoles claimed startHour).map (fun p => p.2)

/-- Embedding of `check_order_condition` (`src/pole.py` lines 438-536).
The cache path and the fallback path compute the same predicate over the
day's claimed poles: fail when the family already has `order` poles, fail
when the user already holds a family pole, succeed iff the configured
order is exactly one more than the current family size. -/
def check_order_condition (cfg : PoleConfig) (order : Nat)
    (claimed : List PoleRecord) (userId : Nat) : Bool :=
  let fam := familyPoles claimed (derivedStartHour cfg)
  if fam.length ≥ order then false
  else if fam.any (fun p => p.1.userId == userId) then false
  else fam.length + 1 == order

/-- Embedding of `Pole.pole_exists` (`src/models.py` lines 451-477) on
the happy path: a pole of this type exists for the (group, day) iff one
was created (cache and collection agree). -/
def pole_exists (st : DayState) (poleType : String) : Bool :=
  st.claimed.any (fun r => r.poleType == poleType)

/-- Time-condition gate of `process_pole_attempt` lines 300-303: absent
condition passes. -/
def timeOk (cfg : PoleConfig) (hour minute : Nat) : Bool :=
  match cfg.timeCondition with
  | some tc => check_time_condition tc hour minute
  | none => true

/-- Order gate of `process_pole_attempt` lines 306-309: only configs
with an `order` are checked. -/
def orderOk (cfg : PoleConfig) (claimed : List PoleRecord) (userId : Nat) : Bool :=
  match cfg.order with
  | some o => check_order_condition cfg o claimed userId
  | none => true

/-- Embedding of `process_pole_attempt` (`src/pole.py` lines 279-322):
reject when already claimed today, when the time condition fails, or when
the order condition fails; otherwise create the pole record (appended to
the day's records and marked claimed in the cache). -/
def process_pole_attempt (poleType : String) (hour minute : Nat)
    (userId : Nat) (st : DayState) : DayState × Option PoleRecord :=
  match lookupConfig poleType with
  | none => (st, none)
  | some cfg =>
      if pole_exists st poleType then (st, none)
      else if !timeOk cfg hour minute then (st, none)
      else if !orderOk cfg st.claimed userId then (st, none)
      else
        let r : PoleRecord := ⟨userId, poleType, cfg.points⟩
        (⟨st.claimed ++ [r]⟩, some r)

/-- One incoming ordered-claim attempt. -/
structure AttemptInput where
  poleType : String
  hour : Nat
  minute : Nat
  userId : Nat
deriving Repr, DecidableEq

/-- A day of attempts processed in arrival order from the empty state. -/
def runDay (trace : List AttemptInput) : DayState :=
  trace.foldl
    (fun st a => (process_pole_attempt a.poleType a.hour a.minute a.userId st).1)
    ⟨[]⟩

/-- Slot invariant of the specification: in every family the granted
slot numbers are `1, 2, ..., k` in order, and no user holds two slots. -/
def SlotInvariant (st : DayState) : Prop :=
  ∀ h : Nat,
    famOrders st.claimed h = List.range' 1 (familyPoles st.claimed h).length ∧
    (famUsers st.claimed h).Nodup

/-! ### CounterPuzzleEngine (`process_counter_based_pole`, `PoleMina`) -/

/-- Embedding of Python `random.randint(a, b)` (inclusive bounds): the
drawn value is a function of an explicit seed, always in `[a, b]`. -/
def randint (a b seed : Nat) : Nat :=
  a + seed % (b - a + 1)

/-- Counter document of `Pole.track_attempt` (`src/models.py` lines
397-449): attempt count, attempt log of (user, timestamp), completion
flag. -/
structure CounterDoc where
  count : Nat
  user_attempts : List (Nat × Nat)
  completed : Bool
deriving Repr, DecidableEq

/-- Daily Pole Mina document of `PoleMina.get_or_create_daily_info`
(`src/models.py` lines 571-613): secret string, required attempt count,
revealed positions in reveal order. -/
structure PoleMinaDoc where
  random_string : List Char
  required_count : Nat
  revealed_positions : List Nat
deriving Repr, DecidableEq

/-- Per-(group, day) persistent state touched by the counter engine:
the `pole_counters` document, the `pole_mina` document, and the pole
records created that day. -/
structure MinaState where
  counter : Option CounterDoc
  mina : Option PoleMinaDoc
  claims : List PoleRecord
deriving Repr, DecidableEq

/-- Embedding of `Pole.track_attempt`: create the counter document if
absent (count 0, empty log, not completed); when not completed,
increment the count and append the attempt; when completed, change
nothing. Returns the resulting document, which is also what the store
holds afterwards. -/
def track_attempt (doc : Option CounterDoc) (userId ts : Nat) : CounterDoc :=
  let d := doc.getD ⟨0, [], false⟩
  if d.completed then d
  else ⟨d.count + 1, d.user_attempts ++ [(userId, ts)], d.completed⟩

/-- Embedding of `PoleMina.get_or_create_daily_info`: return the existing
daily document, or create one with a freshly drawn secret and a required
count drawn by `randint 1 10` and no revealed positions. The secret
(uppercase alphanumeric, length 20 in the source) is passed in as the
random draw. -/
def get_or_create_daily_info (secret : List Char) (seedReq : Nat)
    (mina : Option PoleMinaDoc) : PoleMinaDoc :=
  match mina with
  | some d => d
  | none => ⟨secret, randint 1 10 seedReq, []⟩

/-- Embedding of `PoleMina.reveal_character` (`src/models.py` lines
621-659): if every position is revealed, do nothing; otherwise append
`min` of the unrevealed positions to the revealed list. -/
def reveal_character (d : PoleMinaDoc) : PoleMinaDoc :=
  if d.revealed_positions.length ≥ d.random_string.length then d
  else
    let unrevealed := (List.range d.random_string.length).filter
      (fun i => !(d.revealed_positions.contains i))
    match unrevealed.min? with
    | some next => { d with revealed_positions := d.revealed_positions ++ [next] }
    | none => d

/-- Embedding of `PoleMina.get_masked_string`: revealed positions show
the secret's character, the rest show a placeholder. -/
def get_masked_string (d : PoleMinaDoc) : List Char :=
  (List.range d.random_string.length).map
    (fun i => if d.revealed_positions.contains i then d.random_string.getD i '?'
              else '?')

/-- Data varying in the progress message built by
`process_counter_based_pole` for Pole Mina: attempt number, remaining
attempts, masked secret. -/
structure MinaMessage where
  attemptNo : Nat
  remaining : Nat
  masked : List Char
deriving Repr, DecidableEq

/-- Return value of `process_counter_based_pole`: the created pole record
(on award) and the progress message (otherwise). -/
structure MinaOutcome where
  pole_data : Option PoleRecord
  message : Option MinaMessage
deriving Repr, DecidableEq

/-- Embedding of `process_counter_based_pole` (`src/pole.py` lines
325-393) for the "Pole Mina" type (the only counter-based type of the
catalog): fetch or create the daily document, track the attempt; when
the post-increment count equals the required count and the counter is
not completed, draw a payout with `randint 1 10`, create the pole
record and mark the counter completed; otherwise reveal one more
character and build a progress message. -/
def process_counter_based_pole (secret : List Char) (seedReq ptsSeed : Nat)
    (userId ts : Nat) (st : MinaState) : MinaState × MinaOutcome :=
  let minaDoc := get_or_create_daily_info secret seedReq st.mina
  let required := minaDoc.required_count
  let counter := track_attempt st.counter userId ts
  let st2 : MinaState := { st with mina := some minaDoc, counter := some counter }
  if counter.count == required && !counter.completed then
    let r : PoleRecord := ⟨userId, "Pole Mina", (randint 1 10 ptsSeed : ℚ)⟩
    ({ st2 with claims := st2.claims ++ [r],
                counter := some { counter with completed := true } },
     ⟨some r, none⟩)
  else
    let remaining := required - counter.count
    let minaDoc2 := reveal_character minaDoc
    ({ st2 with mina := some minaDoc2 },
     ⟨none, some ⟨counter.count, remaining, get_masked_string minaDoc2⟩⟩)

/-- Secret carried by the award message: the Pole Mina branch of
`format_pole_message` (`src/pole.py` lines 655-673) fetches the daily
document and prints its full `random_string`. -/
def award_secret (secret : List Char) (seedReq : Nat) (st : MinaState) : List Char :=
  (get_or_create_daily_info secret seedReq st.mina).random_string

/-- Attempt log after `n` attempts by the given user/timestamp streams. -/
def attemptsUpTo (users times : Nat → Nat) (n : Nat) : List (Nat × Nat) :=
  (List.range n).map (fun i => (users i, times i))

/-- A day of `n` Pole Mina attempts processed in order from the empty
state, attempt `i` coming from user `users i` at time `times i` with
payout seed `ptsSeeds i`. -/
def runMina (secret : List Char) (seedReq : Nat)
    (users times ptsSeeds : Nat → Nat) : Nat → MinaState
  | 0 => ⟨none, none, []⟩
  | n + 1 =>
      (process_counter_based_pole secret seedReq (ptsSeeds n) (users n) (times n)
        (runMina secret seedReq users times ptsSeeds n)).1

/-- Outcome returned to attempt `n + 1` (0-based index `n`). -/
def minaOutcomeAt (secret : List Char) (seedReq : Nat)
    (users times ptsSeeds : Nat → Nat) (n : Nat) : MinaOutcome :=
  (process_counter_based_pole secret seedReq (ptsSeeds n) (users n) (times n)
    (runMina secret seedReq users times ptsSeeds n)).2

/-- Expected engine state after `n` attempts, for `n` up to the attempt
that completes the counter. -/
def minaStateAfter (secret : List Char) (seedReq : Nat)
    (users times : Nat → Nat) (n : Nat) : MinaState :=
  if n = 0 then ⟨none, none, []⟩
  else
    ⟨some ⟨n, attemptsUpTo users times n, false⟩,
     some ⟨secret, randint 1 10 seedReq, List.range (min n secret.length)⟩,
     []⟩

/-- Revealed positions of the state's puzzle document. -/
def minaRevealed (st : MinaState) : List Nat :=
  match st.mina with
  | none => []
  | some m => m.revealed_positions

/-- Left-to-right reveal invariant: the revealed positions of the puzzle
document, if present, are exactly the indices `0, ..., k-1` for some
`k` bounded by the secret's length. -/
def RevealInv (st : MinaState) : Prop :=
  ∀ m, st.mina = some m →
    m.revealed_positions = List.range m.revealed_positions.length ∧
    m.revealed_positions.length ≤ m.random_string.length

/-! ### RankingAggregator (`Pole.get_ranking`, `src/models.py`) -/

/-- Pre-aggregated per-(user, group) score document of the `user_poles`
collection (`User.update_points`, `src/models.py` lines 264-302):
cumulative points and the time of the latest score update
(`updated_at`). -/
structure UserPoleDoc where
  user_id : Nat
  total_points : ℚ
  updated_at : Nat
deriving Repr, DecidableEq

/-- Sort relation requested by `Pole.get_ranking`
(`src/models.py` lines 493-522): `sort([("total_points", -1)])` —
descending by `total_points` and by nothing else. -/
def byPointsDesc (x y : UserPoleDoc) : Prop :=
  y.total_points ≤ x.total_points

instance : DecidableRel byPointsDesc :=
  fun x y => inferInstanceAs (Decidable (y.total_points ≤ x.total_points))

instance : IsTotal UserPoleDoc byPointsDesc :=
  ⟨fun x y => le_total y.total_points x.total_points⟩

instance : IsTrans UserPoleDoc byPointsDesc :=
  ⟨fun _ _ _ h1 h2 => le_trans h2 h1⟩

/-- Embedding of `Pole.get_ranking` for a group: the stored documents of
the group, sorted descending by `total_points` alone and truncated to
`limit`, mapped to (user, points). Within equal points the store's
document order is kept (a stable sort models both the production sort on
a single key and the in-memory double's Python `sorted`, which is
stable); no `updated_at` field is consulted. -/
def get_ranking (docs : List UserPoleDoc) (limit : Nat) : List (Nat × ℚ) :=
  ((List.insertionSort byPointsDesc docs).take limit).map
    (fun d => (d.user_id, d.total_points))

/-- Modelled from the spec: the ordering §4.5 claims — descending by
points with exact-point ties broken by earliest cumulative-score update
time. -/
def specTieOrder (x y : UserPoleDoc) : Prop :=
  y.total_points < x.total_points ∨
    (x.total_points = y.total_points ∧ x.updated_at ≤ y.updated_at)

instance : DecidableRel specTieOrder :=
  fun x y => inferInstanceAs (Decidable
    (y.total_points < x.total_points ∨
      (x.total_points = y.total_points ∧ x.updated_at ≤ y.updated_at)))

instance : IsTotal UserPoleDoc specTieOrder := by
  constructor
  intro x y
  rcases lt_trichotomy x.total_points y.total_points with h | h | h
  · exact Or.inr (Or.inl h)
  · rcases Nat.le_total x.updated_at y.updated_at with h2 | h2
    · exact Or.inl (Or.inr ⟨h, h2⟩)
    · exact Or.inr (Or.inr ⟨h.symm, h2⟩)
  · exact Or.inl (Or.inl h)

instance : IsTrans UserPoleDoc specTieOrder := by
  constructor
  intro x y z h1 h2
  rcases h1 with h1 | ⟨h1e, h1le⟩
  · rcases h2 with h2 | ⟨h2e, -⟩
    · exact Or.inl (lt_trans h2 h1)
    · exact Or.inl (h2e ▸ h1)
  · rcases h2 with h2 | ⟨h2e, h2le⟩
    · exact Or.inl (h1e ▸ h2)
    · exact Or.inr ⟨h1e.trans h2e, le_trans h1le h2le⟩

/-- Modelled from the spec: ranking under the claimed tie-break order. -/
def rank_spec (docs : List UserPoleDoc) (limit : Nat) : List (Nat × ℚ) :=
  ((List.insertionSort specTieOrder docs).take limit).map
    (fun d => (d.user_id, d.total_points))

/-! ### Persistence faults (`try/except` blocks of `src/models.py`) -/

/-- Outcome of one persistence call: a value, or a transient fault (a
timeout or connection error raising an exception). -/
inductive DbResult (α : Type) where
  | ok (a : α)
  | err
deriving Repr, DecidableEq

/-- Embedding of `Pole.pole_exists` (`src/models.py` lines 451-477) with
its store outcome explicit: the `except` block logs the error and
returns False. -/
def pole_exists_db (r : DbResult Bool) : Bool :=
  match r with
  | .ok b => b
  | .err => false

/-- Embedding of `Pole.create` (`src/models.py` lines 358-395) with its
store outcome explicit: the `except` block logs the error and returns
None. -/
def pole_create_db (r : DbResult PoleRecord) : Option PoleRecord :=
  match r with
  | .ok d => some d
  | .err => none

/-- `process_pole_attempt` with the persistence outcomes of its two
store calls — the existence read and the record insert — made explicit;
the control flow is exactly that of `src/pole.py` lines 279-322, whose
return type has no failure alternative: None on any rejection, the
record on success. -/
def process_pole_attempt_db (existsRes : DbResult Bool) (createOk : Bool)
    (poleType : String) (hour minute : Nat) (userId : Nat)
    (claimed : List PoleRecord) : Option PoleRecord :=
  match lookupConfig poleType with
  | none => none
  | some cfg =>
      if pole_exists_db existsRes then none
      else if !timeOk cfg hour minute then none
      else if !orderOk cfg claimed userId then none
      else pole_create_db
        (if createOk then .ok ⟨userId, poleType, cfg.points⟩ else .err)

/-! ### Concurrency shape of `Pole.track_attempt` (read then write) -/

/-- Read phase of `Pole.track_attempt`: the `find_one` call plus the
in-memory default document when none exists. -/
def ta_read (store : Option CounterDoc) : CounterDoc :=
  store.getD ⟨0, [], false⟩

/-- Compute phase of `Pole.track_attempt`: the in-memory mutation of the
fetched document. -/
def ta_compute (d : CounterDoc) (userId ts : Nat) : CounterDoc :=
  if d.completed then d
  else ⟨d.count + 1, d.user_attempts ++ [(userId, ts)], d.completed⟩

/-- Write phase of `Pole.track_attempt`: the
`update_one(filter, {"$set": counter_doc}, upsert=True)` call, executed
only when the fetched document was not completed; it overwrites the
stored document unconditionally — no compare-and-set, no transaction
guarding it against writes between the read and this write. -/
def ta_write (store : Option CounterDoc) (fetched computed : CounterDoc) :
    Option CounterDoc :=
  if fetched.completed then store else some computed

/-- Two concurrent attempts on the same (group, claimType, day) key under
the interleaving read-A, read-B, write-A, write-B, which the unguarded
read-then-write permits. -/
def racyPair (uA tA uB tB : Nat) (store : Option CounterDoc) :
    Option CounterDoc :=
  let dA := ta_read store
  let dB := ta_read store
  let store1 := ta_write store dA (ta_compute dA uA tA)
  ta_write store1 dB (ta_compute dB uB tB)

/-- The same two attempts executed sequentially (B reads after A's
write). -/
def seqPair (uA tA uB tB : Nat) (store : Option CounterDoc) :
    Option CounterDoc :=
  let dA := ta_read store
  let store1 := ta_write store dA (ta_compute dA uA tA)
  let dB := ta_read store1
  ta_write store1 dB (ta_compute dB uB tB)

/-- `n` sequential attempts against the same key from a given store. -/
def seqAttempts (users times : Nat → Nat) : Nat → Option CounterDoc
  | 0 => none
  | n + 1 =>
      let st := seqAttempts users times n
      ta_write st (ta_read st) (ta_compute (ta_read st) (users n) (times n))

end PoleBot

namespace PoleBot

/-- List.find? returns `some x` iff the list splits as `l₁ ++ x :: l₂`
with the predicate false on all of `l₁` and true at `x` (first match
wins). -/
theorem find?_eq_some_decomp {α : Type} (p : α → Bool) :
    ∀ (l : List α) (x : α),
      l.find? p = some x ↔
        ∃ l₁ l₂, l = l₁ ++ x :: l₂ ∧ p x = true ∧ ∀ y ∈ l₁, p y = false := by
  intro l x
  induction l with
  | nil => simp
  | cons a t ih =>
    by_cases h : p a
    · rw [List.find?_cons_of_pos _ h]
      constructor
      · intro hax
        injection hax with hax
        exact ⟨[], t, by rw [hax]; rfl, hax ▸ h, by simp⟩
      · rintro ⟨l₁, l₂, hdec, hx, hall⟩
        cases l₁ with
        | nil =>
          simp only [List.nil_append, List.cons.injEq] at hdec
          rw [hdec.1]
        | cons b l₁' =>
          simp only [List.cons_append, List.cons.injEq] at hdec
          have hb : p b = false := hall b (by simp)
          rw [hdec.1] at h
          rw [h] at hb
          cases hb
    · rw [List.find?_cons_of_neg _ h]
      rw [ih]
      constructor
      · rintro ⟨l₁, l₂, rfl, hx, hall⟩
        refine ⟨a :: l₁, l₂, rfl, hx, ?_⟩
        intro y hy
        rcases List.mem_cons.mp hy with rfl | hy
        · simpa using h
        · exact hall y hy
      · rintro ⟨l₁, l₂, hdec, hx, hall⟩
        cases l₁ with
        | nil =>
          simp only [List.nil_append, List.cons.injEq] at hdec
          rw [hdec.1] at h
          exact absurd hx h
        | cons b l₁' =>
          simp only [List.cons_append, List.cons.injEq] at hdec
          exact ⟨l₁', l₂, hdec.2, hx, fun y hy => hall y (by simp [hy])⟩

/-- Characterization of `firstTriggerMatch`: it returns `some pt` iff the
trigger table splits at an entry for `pt` whose literal equals the text,
with every earlier trigger failing. -/
theorem firstTriggerMatch_eq_some_iff (n : List Char) (pt : String) :
    firstTriggerMatch n = some pt ↔
      ∃ l₁ pat l₂, COMPILED_TRIGGERS = l₁ ++ (pat, pt) :: l₂ ∧
        n = literalOf pat ∧ ∀ q ∈ l₁, n ≠ literalOf q.1 := by
  unfold firstTriggerMatch
  rw [Option.map_eq_some']
  constructor
  · rintro ⟨x, hfind, hx2⟩
    obtain ⟨l₁, l₂, hdec, hpred, hall⟩ := (find?_eq_some_decomp _ _ _).mp hfind
    refine ⟨l₁, x.1, l₂, ?_, ?_, ?_⟩
    · rw [hdec]
      cases x
      simp_all
    · simpa using hpred
    · intro q hq
      simpa using hall q hq
  · rintro ⟨l₁, pat, l₂, hdec, hn, hall⟩
    refine ⟨(pat, pt), ?_, rfl⟩
    rw [find?_eq_some_decomp]
    refine ⟨l₁, l₂, hdec, by simpa using hn, ?_⟩
    intro y hy
    simpa using hall y hy

/-- Characterization of `firstTriggerMatch = none`: no trigger literal
equals the text. -/
theorem firstTriggerMatch_eq_none_iff (n : List Char) :
    firstTriggerMatch n = none ↔ ∀ q ∈ COMPILED_TRIGGERS, n ≠ literalOf q.1 := by
  unfold firstTriggerMatch
  rw [Option.map_eq_none']
  rw [List.find?_eq_none]
  constructor
  · intro h q hq
    simpa using h q hq
  · intro h q hq
    simpa using h q hq

/-- Characterization of `firstReactionMatch`: first matching reaction
pattern wins. -/
theorem firstReactionMatch_eq_some_iff
    (reactions : List ((List Char → Bool) × String)) (n : List Char) (k : String) :
    firstReactionMatch reactions n = some k ↔
      ∃ l₁ f l₂, reactions = l₁ ++ (f, k) :: l₂ ∧ f n = true ∧
        ∀ g ∈ l₁, g.1 n = false := by
  unfold firstReactionMatch
  rw [Option.map_eq_some']
  constructor
  · rintro ⟨x, hfind, hx2⟩
    obtain ⟨l₁, l₂, hdec, hpred, hall⟩ := (find?_eq_some_decomp _ _ _).mp hfind
    refine ⟨l₁, x.1, l₂, ?_, hpred, ?_⟩
    · rw [hdec]
      cases x
      simp_all
    · intro g hg
      simpa using hall g hg
  · rintro ⟨l₁, f, l₂, hdec, hf, hall⟩
    refine ⟨(f, k), ?_, rfl⟩
    rw [find?_eq_some_decomp]
    exact ⟨l₁, l₂, hdec, hf, fun y hy => by simpa using hall y hy⟩

/-- Characterization of `firstReactionMatch = none`: every reaction
pattern fails. -/
theorem firstReactionMatch_eq_none_iff
    (reactions : List ((List Char → Bool) × String)) (n : List Char) :
    firstReactionMatch reactions n = none ↔ ∀ r ∈ reactions, r.1 n = false := by
  unfold firstReactionMatch
  rw [Option.map_eq_none']
  rw [List.find?_eq_none]
  constructor
  · intro h r hr
    simpa using h r hr
  · intro h r hr
    simpa using h r hr

/-- C5: classification first trims and lower-cases the text; every claim
trigger (fully anchored literal, evaluated case-insensitively on the
lower-cased text) is tried in catalog order with first match winning; the
malformed-claim (clown pole) fallback is consulted only when every claim
trigger has failed; cosmetic-reaction patterns only when the fallback has
also failed; and the result is no-match exactly when nothing matched. -/
theorem c5_classifier_precedence :
    ∀ (reactions : List ((List Char → Bool) × String)) (text : List Char),
      (∀ pt : String,
        classifyMessage reactions text = .claimMatch pt ↔
          ∃ l₁ pat l₂, COMPILED_TRIGGERS = l₁ ++ (pat, pt) :: l₂ ∧
            normalize text = literalOf pat ∧
            ∀ q ∈ l₁, normalize text ≠ literalOf q.1) ∧
      (classifyMessage reactions text = .clownPole ↔
        (∀ q ∈ COMPILED_TRIGGERS, normalize text ≠ literalOf q.1) ∧
        isClownPole (normalize text) = true) ∧
      (∀ k : String,
        classifyMessage reactions text = .reaction k ↔
          (∀ q ∈ COMPILED_TRIGGERS, normalize text ≠ literalOf q.1) ∧
          isClownPole (normalize text) = false ∧
          ∃ l₁ f l₂, reactions = l₁ ++ (f, k) :: l₂ ∧ f (normalize text) = true ∧
            ∀ g ∈ l₁, g.1 (normalize text) = false) ∧
      (classifyMessage reactions text = .noMatch ↔
        (∀ q ∈ COMPILED_TRIGGERS, normalize text ≠ literalOf q.1) ∧
        isClownPole (normalize text) = false ∧
        ∀ r ∈ reactions, r.1 (normalize text) = false) := by
  intro reactions text
  cases hft : firstTriggerMatch (normalize text) with
  | some pt' =>
    have hmem : ¬ (∀ q ∈ COMPILED_TRIGGERS, normalize text ≠ literalOf q.1) := by
      intro hall
      rw [← firstTriggerMatch_eq_none_iff] at hall
      rw [hft] at hall
      cases hall
    refine ⟨?_, ?_, ?_, ?_⟩
    · intro pt
      simp only [classifyMessage, hft]
      constructor
      · intro h
        injection h with h
        rw [← firstTriggerMatch_eq_some_iff, ← h]
        exact hft
      · intro h
        rw [← firstTriggerMatch_eq_some_iff] at h
        rw [hft] at h
        injection h with h
        rw [h]
    · simp only [classifyMessage, hft]
      constructor
      · intro h; cases h
      · intro h; exact absurd h.1 hmem
    · intro k
      simp only [classifyMessage, hft]
      constructor
      · intro h; cases h
      · intro h; exact absurd h.1 hmem
    · simp only [classifyMessage, hft]
      constructor
      · intro h; cases h
      · intro h; exact absurd h.1 hmem
  | none =>
    have hnone := (firstTriggerMatch_eq_none_iff (normalize text)).mp hft
    have hclass : classifyMessage reactions text =
        (if isClownPole (normalize text) then ClassifyResult.clownPole
         else match firstReactionMatch reactions (normalize text) with
              | some k => ClassifyResult.reaction k
              | none => ClassifyResult.noMatch) := by
      simp [classifyMessage, hft]
    have hno_claim : ∀ pt : String, classifyMessage reactions text ≠ .claimMatch pt := by
      intro pt
      rw [hclass]
      by_cases hc : isClownPole (normalize text)
      · simp [hc]
      · cases hr : firstReactionMatch reactions (normalize text) <;> simp [hc, hr]
    refine ⟨?_, ?_, ?_, ?_⟩
    · intro pt
      constructor
      · intro h
        exact absurd h (hno_claim pt)
      · intro h
        rw [← firstTriggerMatch_eq_some_iff] at h
        rw [hft] at h
        cases h
    · rw [hclass]
      by_cases hc : isClownPole (normalize text)
      · rw [if_pos hc]
        exact ⟨fun _ => ⟨hnone, hc⟩, fun _ => rfl⟩
      · rw [if_neg hc]
        constructor
        · intro h
          cases hr : firstReactionMatch reactions (normalize text) <;>
            rw [hr] at h <;> cases h
        · intro h
          exact absurd h.2 hc
    · intro k
      rw [hclass]
      by_cases hc : isClownPole (normalize text)
      · rw [if_pos hc]
        constructor
        · intro h; cases h
        · rintro ⟨-, h2, -⟩
          exact absurd (hc.symm.trans h2) (by decide)
      · rw [if_neg hc]
        cases hr : firstReactionMatch reactions (normalize text) with
        | some k' =>
          constructor
          · intro h
            injection h with h
            refine ⟨hnone, Bool.eq_false_iff.mpr hc, ?_⟩
            rw [← firstReactionMatch_eq_some_iff, ← h]
            exact hr
          · rintro ⟨-, -, h3⟩
            rw [← firstReactionMatch_eq_some_iff] at h3
            rw [hr] at h3
            injection h3 with h3
            rw [h3]
        | none =>
          constructor
          · intro h; cases h
          · rintro ⟨-, -, h3⟩
            rw [← firstReactionMatch_eq_some_iff] at h3
            rw [hr] at h3
            cases h3
    · rw [hclass]
      by_cases hc : isClownPole (normalize text)
      · rw [if_pos hc]
        constructor
        · intro h; cases h
        · rintro ⟨-, h2, -⟩
          exact absurd (hc.symm.trans h2) (by decide)
      · rw [if_neg hc]
        cases hr : firstReactionMatch reactions (normalize text) with
        | some k' =>
          constructor
          · intro h; cases h
          · rintro ⟨-, -, h3⟩
            rw [← firstReactionMatch_eq_none_iff] at h3
            rw [hr] at h3
            cases h3
        | none =>
          exact ⟨fun _ => ⟨hnone, Bool.eq_false_iff.mpr hc,
              (firstReactionMatch_eq_none_iff reactions (normalize text)).mp hr⟩,
            fun _ => rfl⟩

/-- Family poles of a one-longer day: the new record contributes exactly
its own family entry. -/
theorem familyPoles_concat (claimed : List PoleRecord) (r : PoleRecord) (h : Nat) :
    familyPoles (claimed ++ [r]) h = familyPoles claimed h ++ familyPoles [r] h := by
  simp only [familyPoles, List.filterMap_append]

/-- Unfolding equation for `famUsers`. -/
theorem famUsers_eq (claimed : List PoleRecord) (h : Nat) :
    famUsers claimed h = (familyPoles claimed h).map (fun p => p.1.userId) := rfl

/-- Unfolding equation for `famOrders`. -/
theorem famOrders_eq (claimed : List PoleRecord) (h : Nat) :
    famOrders claimed h = (familyPoles claimed h).map (fun p => p.2) := rfl

/-- A record whose config has an order contributes to exactly the family
of its derived start hour. -/
theorem familyPoles_single (r : PoleRecord) (cfg : PoleConfig) (o : Nat)
    (hlook : lookupConfig r.poleType = some cfg) (ho : cfg.order = some o) (h : Nat) :
    familyPoles [r] h =
      if derivedStartHour cfg = h then [(r, o)] else [] := by
  by_cases hh : derivedStartHour cfg = h
  · simp [familyPoles, hlook, ho, hh]
  · simp [familyPoles, hlook, ho, hh]

/-- A record without an order (or without a catalog entry) contributes to
no family. -/
theorem familyPoles_single_none (r : PoleRecord) (h : Nat)
    (hno : ∀ cfg, lookupConfig r.poleType = some cfg → cfg.order = none) :
    familyPoles [r] h = [] := by
  cases hlook : lookupConfig r.poleType with
  | none => simp [familyPoles, hlook]
  | some cfg => simp [familyPoles, hlook, hno cfg hlook]

/-- Characterization of `check_order_condition`: the check passes iff the
user holds no slot in the family and the configured slot number is
exactly the current family size plus one. -/
theorem check_order_iff (cfg : PoleConfig) (o : Nat)
    (claimed : List PoleRecord) (u : Nat) :
    check_order_condition cfg o claimed u = true ↔
      ¬ u ∈ famUsers claimed (derivedStartHour cfg) ∧
      o = (familyPoles claimed (derivedStartHour cfg)).length + 1 := by
  unfold check_order_condition
  have hmem : (familyPoles claimed (derivedStartHour cfg)).any
      (fun p => p.1.userId == u) = true ↔
      u ∈ famUsers claimed (derivedStartHour cfg) := by
    rw [List.any_eq_true, famUsers_eq]
    constructor
    · rintro ⟨p, hp, hb⟩
      exact List.mem_map.mpr ⟨p, hp, beq_iff_eq.mp hb⟩
    · intro hm
      obtain ⟨p, hp, heq⟩ := List.mem_map.mp hm
      exact ⟨p, hp, beq_iff_eq.mpr heq⟩
  by_cases h1 : (familyPoles claimed (derivedStartHour cfg)).length ≥ o
  · rw [if_pos h1]
    constructor
    · intro h; exact Bool.noConfusion h
    · rintro ⟨-, ho⟩
      exact absurd h1 (by omega)
  · rw [if_neg h1]
    by_cases h2 : ((familyPoles claimed (derivedStartHour cfg)).any
        (fun p => p.1.userId == u)) = true
    · rw [if_pos h2]
      constructor
      · intro h; exact Bool.noConfusion h
      · rintro ⟨hnm, -⟩
        exact absurd (hmem.mp h2) hnm
    · rw [if_neg h2]
      rw [beq_iff_eq]
      constructor
      · intro h
        exact ⟨fun hm => h2 (hmem.mpr hm), h.symm⟩
      · rintro ⟨-, ho⟩
        exact ho.symm

/-- One processed attempt preserves the slot invariant. -/
theorem slotInvariant_step (st : DayState) (a : AttemptInput)
    (hinv : SlotInvariant st) :
    SlotInvariant (process_pole_attempt a.poleType a.hour a.minute a.userId st).1 := by
  unfold process_pole_attempt
  cases hlook : lookupConfig a.poleType with
  | none => exact hinv
  | some cfg =>
    by_cases h1 : pole_exists st a.poleType
    · simp only [h1, if_true]
      exact hinv
    · simp only [h1, if_false]
      by_cases h2 : timeOk cfg a.hour a.minute
      · simp only [h2, Bool.not_true, Bool.false_eq_true, if_false]
        by_cases h3 : orderOk cfg st.claimed a.userId
        · simp only [h3, Bool.not_true, Bool.false_eq_true, if_false]
          intro h
          cases ho : cfg.order with
          | none =>
            have hsingle : familyPoles [⟨a.userId, a.poleType, cfg.points⟩] h = [] := by
              apply familyPoles_single_none
              intro cfg' hc'
              rw [hlook] at hc'
              injection hc' with hc'
              rw [← hc']
              exact ho
            constructor
            · rw [famOrders_eq, familyPoles_concat, hsingle, List.append_nil,
                ← famOrders_eq]
              exact (hinv h).1
            · rw [famUsers_eq, familyPoles_concat, hsingle, List.append_nil,
                ← famUsers_eq]
              exact (hinv h).2
          | some o =>
            have hchk : check_order_condition cfg o st.claimed a.userId = true := by
              rw [orderOk, ho] at h3
              simpa using h3
            obtain ⟨hnm, hlen⟩ := (check_order_iff cfg o st.claimed a.userId).mp hchk
            have hsingle := familyPoles_single ⟨a.userId, a.poleType, cfg.points⟩ cfg o
              hlook ho
            by_cases hh : derivedStartHour cfg = h
            · subst hh
              constructor
              · have hfam := (hinv (derivedStartHour cfg)).1
                rw [famOrders_eq] at hfam
                rw [famOrders_eq, familyPoles_concat, hsingle, if_pos rfl,
                  List.map_append, hfam]
                simp only [List.map_cons, List.map_nil, List.length_append,
                  List.length_singleton]
                rw [List.range'_concat]
                simp
                omega
              · have hnd := (hinv (derivedStartHour cfg)).2
                rw [famUsers_eq] at hnd
                rw [famUsers_eq, familyPoles_concat, hsingle, if_pos rfl,
                  List.map_append, List.nodup_append]
                refine ⟨hnd, by simp, ?_⟩
                intro x hx
                simp only [List.map_cons, List.map_nil, List.mem_singleton]
                intro hx1
                rw [hx1] at hx
                rw [famUsers_eq] at hnm
                exact absurd hx hnm
            · constructor
              · rw [famOrders_eq, familyPoles_concat, hsingle, if_neg hh,
                  List.append_nil, ← famOrders_eq]
                exact (hinv h).1
              · rw [famUsers_eq, familyPoles_concat, hsingle, if_neg hh,
                  List.append_nil, ← famUsers_eq]
                exact (hinv h).2
        · simp only [h3, Bool.not_false, if_true]
          exact hinv
      · simp only [h2, Bool.not_false, if_true]
        exact hinv

/-- The slot invariant holds after any run from the empty day. -/
theorem slotInvariant_runDay_aux (trace : List AttemptInput) :
    ∀ st : DayState, SlotInvariant st →
      SlotInvariant (trace.foldl
        (fun st a => (process_pole_attempt a.poleType a.hour a.minute a.userId st).1)
        st) := by
  induction trace with
  | nil => intro st h; exact h
  | cons a t ih =>
    intro st h
    exact ih _ (slotInvariant_step st a h)

/-- C2: for every (group, family, day), the granted family slots of any
day of processed attempts form the contiguous increasing sequence
`1, 2, ..., k`, and no user holds two slots in one family; an ordered
claim passes the order check exactly when the claimant holds no slot in
that family that day and its configured slot number is the current number
of granted slots plus one. -/
theorem c2_slot_invariant :
    ∀ (trace : List AttemptInput),
      (∀ h : Nat,
        famOrders (runDay trace).claimed h =
          List.range' 1 (familyPoles (runDay trace).claimed h).length ∧
        (famUsers (runDay trace).claimed h).Nodup) ∧
      (∀ (cfg : PoleConfig) (o : Nat) (claimed : List PoleRecord) (u : Nat),
        check_order_condition cfg o claimed u = true ↔
          ¬ u ∈ famUsers claimed (derivedStartHour cfg) ∧
          o = (familyPoles claimed (derivedStartHour cfg)).length + 1) := by
  intro trace
  constructor
  · have : SlotInvariant (runDay trace) := by
      apply slotInvariant_runDay_aux
      intro h
      constructor
      · rfl
      · exact List.nodup_nil
    exact this
  · exact check_order_iff

/-- C6: an ExactTime condition holds iff the local hour and minute equal
one of the configured targets exactly; a TimeRange condition holds iff
`startHour ≤ localHour < endHourExclusive`; DailyReset and CounterBased
conditions always hold. -/
theorem c6_time_conditions :
    ∀ (hour minute : Nat),
      (∀ targets : List (Nat × Nat),
        check_time_condition (.exactTime targets) hour minute = true ↔
          ∃ t ∈ targets, t.1 = hour ∧ t.2 = minute) ∧
      (∀ s e : Nat,
        check_time_condition (.timeRange s e) hour minute = true ↔
          s ≤ hour ∧ hour < e) ∧
      (∀ s : Nat, check_time_condition (.dailyReset s) hour minute = true) ∧
      (∀ c : Nat, check_time_condition (.counterBased c) hour minute = true) := by
  intro hour minute
  refine ⟨?_, ?_, ?_, ?_⟩
  · intro targets
    simp [check_time_condition, List.any_eq_true]
  · intro s e
    simp [check_time_condition]
  · intro s; rfl
  · intro c; rfl

/-- Folding `min` over a list of elements all at least `a` gives `a`. -/
theorem foldl_min_const : ∀ (l : List Nat) (a : Nat),
    (∀ x ∈ l, a ≤ x) → l.foldl min a = a := by
  intro l
  induction l with
  | nil => intro a _; rfl
  | cons x xs ih =>
    intro a h
    have hx : min a x = a := Nat.min_eq_left (h x (by simp))
    show List.foldl min (min a x) xs = a
    rw [hx]
    exact ih a (fun y hy => h y (by simp [hy]))

/-- Minimum of a nonempty ascending block `[k, k+1, ...]`. -/
theorem min?_range' (k m : Nat) (hm : 0 < m) :
    (List.range' k m).min? = some k := by
  cases m with
  | zero => cases hm
  | succ m' =>
    show (k :: List.range' (k + 1) m').min? = some k
    show some ((List.range' (k + 1) m').foldl min k) = some k
    rw [foldl_min_const]
    intro x hx
    have := List.mem_range'_1.mp hx
    omega

/-- The unrevealed positions of an initially-revealed puzzle are the
block `[k, ..., len-1]`. -/
theorem range_filter_not_contains (len k : Nat) (hk : k ≤ len) :
    (List.range len).filter (fun i => !((List.range k).contains i)) =
      List.range' k (len - k) := by
  have hsplit : List.range len = List.range' 0 k ++ List.range' k (len - k) := by
    rw [List.range_eq_range']
    have := List.range'_append 0 k (len - k) 1
    simp only [Nat.one_mul, Nat.zero_add] at this
    rw [this]
    congr 1
    omega
  rw [hsplit, List.filter_append]
  have h1 : (List.range' 0 k).filter (fun i => !((List.range k).contains i)) = [] := by
    rw [List.filter_eq_nil_iff]
    intro a ha
    have := List.mem_range'_1.mp ha
    simp [List.mem_range]
    omega
  have h2 : (List.range' k (len - k)).filter
      (fun i => !((List.range k).contains i)) = List.range' k (len - k) := by
    rw [List.filter_eq_self]
    intro a ha
    have := List.mem_range'_1.mp ha
    simp [List.mem_range]
    omega
  rw [h1, h2, List.nil_append]

/-- `reveal_character` on a left-to-right revealed puzzle document
reveals exactly the next index (no-op when everything is revealed). -/
theorem reveal_range (s : List Char) (R k : Nat) (hk : k ≤ s.length) :
    reveal_character ⟨s, R, List.range k⟩ =
      ⟨s, R, List.range (min (k + 1) s.length)⟩ := by
  unfold reveal_character
  simp only [List.length_range]
  by_cases hfull : k ≥ s.length
  · rw [if_pos hfull]
    have : min (k + 1) s.length = k := by omega
    rw [this]
  · rw [if_neg hfull]
    have hlt : k < s.length := by omega
    rw [range_filter_not_contains s.length k hk]
    rw [min?_range' k (s.length - k) (by omega)]
    have : min (k + 1) s.length = k + 1 := by omega
    rw [this]
    simp [List.range_succ]

/-- The attempt log grows by the new attempt. -/
theorem attemptsUpTo_succ (users times : Nat → Nat) (n : Nat) :
    attemptsUpTo users times (n + 1) =
      attemptsUpTo users times n ++ [(users n, times n)] := by
  unfold attemptsUpTo
  rw [List.range_succ, List.map_append]
  rfl

/-- Processing an attempt while the counter document is already
completed: the counter, the claims and the payout are untouched, but one
more character is revealed and a progress message with `remaining = 0`
is still produced. -/
theorem process_completed (secret : List Char) (seedReq ptsSeed u ts : Nat)
    (st : MinaState) (c : CounterDoc) (m : PoleMinaDoc)
    (hc : st.counter = some c) (hcomp : c.completed = true)
    (hm : st.mina = some m) :
    process_counter_based_pole secret seedReq ptsSeed u ts st =
      ({ st with mina := some (reveal_character m) },
       ⟨none, some ⟨c.count, m.required_count - c.count,
         get_masked_string (reveal_character m)⟩⟩) := by
  obtain ⟨sc, sm, scl⟩ := st
  simp only at hc hm
  subst hc
  subst hm
  simp [process_counter_based_pole, get_or_create_daily_info, track_attempt, hcomp]

/-- Shape of `process_counter_based_pole` on the awarding branch. -/
theorem process_award_eq (secret : List Char) (seedReq ptsSeed u ts : Nat)
    (st : MinaState)
    (hcond : ((track_attempt st.counter u ts).count ==
        (get_or_create_daily_info secret seedReq st.mina).required_count &&
        !(track_attempt st.counter u ts).completed) = true) :
    process_counter_based_pole secret seedReq ptsSeed u ts st =
      ({ st with
          mina := some (get_or_create_daily_info secret seedReq st.mina),
          counter := some { track_attempt st.counter u ts with completed := true },
          claims := st.claims ++ [⟨u, "Pole Mina", (randint 1 10 ptsSeed : ℚ)⟩] },
       ⟨some ⟨u, "Pole Mina", (randint 1 10 ptsSeed : ℚ)⟩, none⟩) := by
  simp only [process_counter_based_pole]
  rw [if_pos hcond]

/-- Shape of `process_counter_based_pole` on the progress branch. -/
theorem process_progress_eq (secret : List Char) (seedReq ptsSeed u ts : Nat)
    (st : MinaState)
    (hcond : ((track_attempt st.counter u ts).count ==
        (get_or_create_daily_info secret seedReq st.mina).required_count &&
        !(track_attempt st.counter u ts).completed) = false) :
    process_counter_based_pole secret seedReq ptsSeed u ts st =
      ({ st with
          mina := some (reveal_character
            (get_or_create_daily_info secret seedReq st.mina)),
          counter := some (track_attempt st.counter u ts) },
       ⟨none, some ⟨(track_attempt st.counter u ts).count,
         (get_or_create_daily_info secret seedReq st.mina).required_count -
           (track_attempt st.counter u ts).count,
         get_masked_string (reveal_character
           (get_or_create_daily_info secret seedReq st.mina))⟩⟩) := by
  simp only [process_counter_based_pole]
  rw [if_neg (by rw [hcond]; exact Bool.false_ne_true)]

/-- A progress attempt from the expected intermediate state steps to the
next expected state, with the expected progress message. -/
theorem process_at_minaStateAfter (secret : List Char) (seedReq : Nat)
    (users times ptsSeeds : Nat → Nat) (n : Nat)
    (h : n + 1 < randint 1 10 seedReq) :
    process_counter_based_pole secret seedReq (ptsSeeds n) (users n) (times n)
        (minaStateAfter secret seedReq users times n) =
      (minaStateAfter secret seedReq users times (n + 1),
       ⟨none, some ⟨n + 1, randint 1 10 seedReq - (n + 1),
         get_masked_string ⟨secret, randint 1 10 seedReq,
           List.range (min (n + 1) secret.length)⟩⟩⟩) := by
  have htrack : track_attempt (minaStateAfter secret seedReq users times n).counter
      (users n) (times n) =
      ⟨n + 1, attemptsUpTo users times (n + 1), false⟩ := by
    by_cases hn : n = 0
    · subst hn
      simp [minaStateAfter, track_attempt, attemptsUpTo,
        show List.range 1 = [0] from rfl]
    · simp [minaStateAfter, hn, track_attempt, attemptsUpTo_succ]
  have hdoc : get_or_create_daily_info secret seedReq
      (minaStateAfter secret seedReq users times n).mina =
      ⟨secret, randint 1 10 seedReq, List.range (min n secret.length)⟩ := by
    by_cases hn : n = 0
    · subst hn
      simp [minaStateAfter, get_or_create_daily_info]
    · simp [minaStateAfter, hn, get_or_create_daily_info]
  have hcond : ((track_attempt (minaStateAfter secret seedReq users times n).counter
      (users n) (times n)).count ==
      (get_or_create_daily_info secret seedReq
        (minaStateAfter secret seedReq users times n).mina).required_count &&
      !(track_attempt (minaStateAfter secret seedReq users times n).counter
        (users n) (times n)).completed) = false := by
    rw [htrack, hdoc]
    simp only [Bool.not_false, Bool.and_true]
    rw [beq_eq_false_iff_ne]
    omega
  rw [process_progress_eq secret seedReq (ptsSeeds n) (users n) (times n) _ hcond]
  rw [htrack, hdoc]
  have hrev : reveal_character ⟨secret, randint 1 10 seedReq,
      List.range (min n secret.length)⟩ =
      ⟨secret, randint 1 10 seedReq, List.range (min (n + 1) secret.length)⟩ := by
    rw [reveal_range secret (randint 1 10 seedReq) (min n secret.length) (by omega),
      show min (min n secret.length + 1) secret.length =
        min (n + 1) secret.length from by omega]
  rw [hrev]
  by_cases hn : n = 0
  · subst hn
    simp [minaStateAfter]
  · simp [minaStateAfter, hn]

/-- The engine passes through the expected intermediate states up to the
completing attempt. -/
theorem runMina_stateAfter (secret : List Char) (seedReq : Nat)
    (users times ptsSeeds : Nat → Nat) :
    ∀ n, n < randint 1 10 seedReq →
      runMina secret seedReq users times ptsSeeds n =
        minaStateAfter secret seedReq users times n := by
  intro n
  induction n with
  | zero => intro _; rfl
  | succ n ih =>
    intro h
    show (process_counter_based_pole secret seedReq (ptsSeeds n) (users n) (times n)
      (runMina secret seedReq users times ptsSeeds n)).1 = _
    rw [ih (by omega), process_at_minaStateAfter secret seedReq users times ptsSeeds n h]

/-- The completing attempt from the expected state awards the payout,
creates the record and completes the counter. -/
theorem process_awards_at (secret : List Char) (seedReq : Nat)
    (users times ptsSeeds : Nat → Nat) (n : Nat)
    (h : n + 1 = randint 1 10 seedReq) :
    process_counter_based_pole secret seedReq (ptsSeeds n) (users n) (times n)
        (minaStateAfter secret seedReq users times n) =
      (⟨some ⟨n + 1, attemptsUpTo users times (n + 1), true⟩,
        some ⟨secret, randint 1 10 seedReq, List.range (min n secret.length)⟩,
        [⟨users n, "Pole Mina", (randint 1 10 (ptsSeeds n) : ℚ)⟩]⟩,
       ⟨some ⟨users n, "Pole Mina", (randint 1 10 (ptsSeeds n) : ℚ)⟩, none⟩) := by
  have htrack : track_attempt (minaStateAfter secret seedReq users times n).counter
      (users n) (times n) =
      ⟨n + 1, attemptsUpTo users times (n + 1), false⟩ := by
    by_cases hn : n = 0
    · subst hn
      simp [minaStateAfter, track_attempt, attemptsUpTo,
        show List.range 1 = [0] from rfl]
    · simp [minaStateAfter, hn, track_attempt, attemptsUpTo_succ]
  have hdoc : get_or_create_daily_info secret seedReq
      (minaStateAfter secret seedReq users times n).mina =
      ⟨secret, randint 1 10 seedReq, List.range (min n secret.length)⟩ := by
    by_cases hn : n = 0
    · subst hn
      simp [minaStateAfter, get_or_create_daily_info]
    · simp [minaStateAfter, hn, get_or_create_daily_info]
  have hcond : ((track_attempt (minaStateAfter secret seedReq users times n).counter
      (users n) (times n)).count ==
      (get_or_create_daily_info secret seedReq
        (minaStateAfter secret seedReq users times n).mina).required_count &&
      !(track_attempt (minaStateAfter secret seedReq users times n).counter
        (users n) (times n)).completed) = true := by
    rw [htrack, hdoc]
    simp only [Bool.not_false, Bool.and_true]
    rw [beq_iff_eq]
    exact h
  rw [process_award_eq secret seedReq (ptsSeeds n) (users n) (times n) _ hcond]
  rw [htrack, hdoc]
  by_cases hn : n = 0
  · subst hn
    simp [minaStateAfter]
  · simp [minaStateAfter, hn]

/-- State after the completing attempt. -/
theorem runMina_completes (secret : List Char) (seedReq : Nat)
    (users times ptsSeeds : Nat → Nat) :
    runMina secret seedReq users times ptsSeeds (randint 1 10 seedReq) =
      ⟨some ⟨randint 1 10 seedReq,
          attemptsUpTo users times (randint 1 10 seedReq), true⟩,
        some ⟨secret, randint 1 10 seedReq,
          List.range (min (randint 1 10 seedReq - 1) secret.length)⟩,
        [⟨users (randint 1 10 seedReq - 1), "Pole Mina",
          (randint 1 10 (ptsSeeds (randint 1 10 seedReq - 1)) : ℚ)⟩]⟩ ∧
    minaOutcomeAt secret seedReq users times ptsSeeds (randint 1 10 seedReq - 1) =
      ⟨some ⟨users (randint 1 10 seedReq - 1), "Pole Mina",
        (randint 1 10 (ptsSeeds (randint 1 10 seedReq - 1)) : ℚ)⟩, none⟩ := by
  have hR : 1 ≤ randint 1 10 seedReq := by
    unfold randint
    omega
  have hstep := process_awards_at secret seedReq users times ptsSeeds
    (randint 1 10 seedReq - 1) (by omega)
  have hstate := runMina_stateAfter secret seedReq users times ptsSeeds
    (randint 1 10 seedReq - 1) (by omega)
  have hsucc : randint 1 10 seedReq = (randint 1 10 seedReq - 1) + 1 := by omega
  constructor
  · rw [hsucc]
    show (process_counter_based_pole secret seedReq
      (ptsSeeds (randint 1 10 seedReq - 1)) (users (randint 1 10 seedReq - 1))
      (times (randint 1 10 seedReq - 1))
      (runMina secret seedReq users times ptsSeeds (randint 1 10 seedReq - 1))).1 = _
    rw [hstate, hstep]
    rw [← hsucc]
  · unfold minaOutcomeAt
    rw [hstate, hstep]

/-- After completion every further attempt leaves the counter and the
claims untouched (and the puzzle document stays present). -/
theorem runMina_post (secret : List Char) (seedReq : Nat)
    (users times ptsSeeds : Nat → Nat) :
    ∀ k,
      (runMina secret seedReq users times ptsSeeds
          (randint 1 10 seedReq + k)).counter =
        some ⟨randint 1 10 seedReq,
          attemptsUpTo users times (randint 1 10 seedReq), true⟩ ∧
      (runMina secret seedReq users times ptsSeeds
          (randint 1 10 seedReq + k)).claims =
        [⟨users (randint 1 10 seedReq - 1), "Pole Mina",
          (randint 1 10 (ptsSeeds (randint 1 10 seedReq - 1)) : ℚ)⟩] ∧
      ∃ m, (runMina secret seedReq users times ptsSeeds
          (randint 1 10 seedReq + k)).mina = some m := by
  intro k
  induction k with
  | zero =>
    rw [Nat.add_zero, (runMina_completes secret seedReq users times ptsSeeds).1]
    exact ⟨rfl, rfl, _, rfl⟩
  | succ k ih =>
    obtain ⟨hc, hcl, m, hm⟩ := ih
    have hstep := process_completed secret seedReq
      (ptsSeeds (randint 1 10 seedReq + k)) (users (randint 1 10 seedReq + k))
      (times (randint 1 10 seedReq + k))
      (runMina secret seedReq users times ptsSeeds (randint 1 10 seedReq + k))
      ⟨randint 1 10 seedReq, attemptsUpTo users times (randint 1 10 seedReq), true⟩
      m hc rfl hm
    have hrun : runMina secret seedReq users times ptsSeeds
        (randint 1 10 seedReq + (k + 1)) =
        { runMina secret seedReq users times ptsSeeds (randint 1 10 seedReq + k)
            with mina := some (reveal_character m) } := by
      show (process_counter_based_pole secret seedReq
        (ptsSeeds (randint 1 10 seedReq + k)) (users (randint 1 10 seedReq + k))
        (times (randint 1 10 seedReq + k))
        (runMina secret seedReq users times ptsSeeds
          (randint 1 10 seedReq + k))).1 = _
      rw [hstep]
    rw [hrun]
    exact ⟨hc, hcl, reveal_character m, rfl⟩

/-- Revealed positions of a state literal. -/
theorem minaRevealed_update (c : Option CounterDoc) (d : PoleMinaDoc)
    (cl : List PoleRecord) :
    minaRevealed { counter := c, mina := some d, claims := cl } =
      d.revealed_positions := rfl

/-- C1 (counterexample): an attempt arriving when the counter is already
completed is not a pure no-op: at this concrete completed state the
engine reveals one more puzzle position (revealed set [0,1] grows to
[0,1,2]) and produces a progress message with remaining 0, contradicting
the claim that no state is mutated and no message is produced. -/
theorem c1_counterexample :
    (process_counter_based_pole "ABCDE".toList 0 0 9 9
        ⟨some ⟨3, [], true⟩, some ⟨"ABCDE".toList, 3, [0, 1]⟩, []⟩).1.mina =
      some ⟨"ABCDE".toList, 3, [0, 1, 2]⟩ ∧
    (⟨some ⟨3, [], true⟩, some ⟨"ABCDE".toList, 3, [0, 1]⟩, []⟩ : MinaState).mina ≠
      some ⟨"ABCDE".toList, 3, [0, 1, 2]⟩ ∧
    (process_counter_based_pole "ABCDE".toList 0 0 9 9
        ⟨some ⟨3, [], true⟩, some ⟨"ABCDE".toList, 3, [0, 1]⟩, []⟩).2.message =
      some ⟨3, 0, "ABC??".toList⟩ := by
  refine ⟨?_, by decide, ?_⟩
  · rw [process_progress_eq _ _ _ _ _ _ (by decide)]
    decide
  · rw [process_progress_eq _ _ _ _ _ _ (by decide)]
    decide

/-- C1 (amended): when the counter is already completed, an attempt
leaves the counter, the attempt log and the claim records untouched and
pays nothing, but it does apply one more `reveal_character` to the
puzzle document and still returns a progress-style message carrying the
attempt count, `remaining = requiredCount - count` (zero) and the masked
secret — it is not silent. -/
theorem c1_amended :
    ∀ (secret : List Char) (seedReq ptsSeed u ts : Nat) (st : MinaState)
      (c : CounterDoc) (m : PoleMinaDoc),
      st.counter = some c → c.completed = true → st.mina = some m →
      (process_counter_based_pole secret seedReq ptsSeed u ts st).1.counter =
          st.counter ∧
      (process_counter_based_pole secret seedReq ptsSeed u ts st).1.claims =
          st.claims ∧
      (process_counter_based_pole secret seedReq ptsSeed u ts st).2.pole_data =
          none ∧
      (process_counter_based_pole secret seedReq ptsSeed u ts st).1.mina =
          some (reveal_character m) ∧
      (process_counter_based_pole secret seedReq ptsSeed u ts st).2.message =
          some ⟨c.count, m.required_count - c.count,
            get_masked_string (reveal_character m)⟩ := by
  intro secret seedReq ptsSeed u ts st c m hc hcomp hm
  rw [process_completed secret seedReq ptsSeed u ts st c m hc hcomp hm]
  exact ⟨rfl, rfl, rfl, rfl, rfl⟩

/-- Witness for C1 (amended) at a concrete completed state. -/
theorem c1_amended_witness :
    (process_counter_based_pole "ABCDE".toList 0 0 9 9
        ⟨some ⟨3, [], true⟩, some ⟨"ABCDE".toList, 3, [0, 1]⟩, []⟩).1.counter =
        some ⟨3, [], true⟩ ∧
    (process_counter_based_pole "ABCDE".toList 0 0 9 9
        ⟨some ⟨3, [], true⟩, some ⟨"ABCDE".toList, 3, [0, 1]⟩, []⟩).1.claims = [] ∧
    (process_counter_based_pole "ABCDE".toList 0 0 9 9
        ⟨some ⟨3, [], true⟩, some ⟨"ABCDE".toList, 3, [0, 1]⟩, []⟩).2.pole_data =
        none ∧
    (process_counter_based_pole "ABCDE".toList 0 0 9 9
        ⟨some ⟨3, [], true⟩, some ⟨"ABCDE".toList, 3, [0, 1]⟩, []⟩).1.mina =
        some (reveal_character ⟨"ABCDE".toList, 3, [0, 1]⟩) ∧
    (process_counter_based_pole "ABCDE".toList 0 0 9 9
        ⟨some ⟨3, [], true⟩, some ⟨"ABCDE".toList, 3, [0, 1]⟩, []⟩).2.message =
        some ⟨3, 3 - 3, get_masked_string (reveal_character ⟨"ABCDE".toList, 3, [0, 1]⟩)⟩ :=
  c1_amended "ABCDE".toList 0 0 9 9
    ⟨some ⟨3, [], true⟩, some ⟨"ABCDE".toList, 3, [0, 1]⟩, []⟩
    ⟨3, [], true⟩ ⟨"ABCDE".toList, 3, [0, 1]⟩ rfl rfl rfl

/-- C3: for a counter run with `requiredCount = R` drawn by
`randint 1 10` (so `R` is in the configured range 1-10, as is every
payout draw), every attempt numbered `n + 1 < R` returns a progress
outcome with attempt number `n + 1` and `remaining = R - (n + 1)` and no
payout; attempt `R` returns the payout record (its points being the
`randint 1 10` draw) with no progress message; exactly one claim record
is written, and it persists unchanged after completion; the counter is
completed with count `R` and the full attempt log; the award message
carries the fully revealed secret; and `completed` stays true for every
later attempt (one-way transition). -/
theorem c3_counter_run :
    ∀ (secret : List Char) (seedReq : Nat) (users times ptsSeeds : Nat → Nat),
      (∀ s : Nat, 1 ≤ randint 1 10 s ∧ randint 1 10 s ≤ 10) ∧
      (∀ n : Nat, n + 1 < randint 1 10 seedReq →
        minaOutcomeAt secret seedReq users times ptsSeeds n =
          ⟨none, some ⟨n + 1, randint 1 10 seedReq - (n + 1),
            get_masked_string ⟨secret, randint 1 10 seedReq,
              List.range (min (n + 1) secret.length)⟩⟩⟩) ∧
      (minaOutcomeAt secret seedReq users times ptsSeeds
          (randint 1 10 seedReq - 1) =
        ⟨some ⟨users (randint 1 10 seedReq - 1), "Pole Mina",
          (randint 1 10 (ptsSeeds (randint 1 10 seedReq - 1)) : ℚ)⟩, none⟩) ∧
      (∀ k : Nat,
        (runMina secret seedReq users times ptsSeeds
            (randint 1 10 seedReq + k)).claims =
          [⟨users (randint 1 10 seedReq - 1), "Pole Mina",
            (randint 1 10 (ptsSeeds (randint 1 10 seedReq - 1)) : ℚ)⟩]) ∧
      (∀ k : Nat,
        (runMina secret seedReq users times ptsSeeds
            (randint 1 10 seedReq + k)).counter =
          some ⟨randint 1 10 seedReq,
            attemptsUpTo users times (randint 1 10 seedReq), true⟩) ∧
      award_secret secret seedReq
        (runMina secret seedReq users times ptsSeeds (randint 1 10 seedReq)) =
        secret := by
  intro secret seedReq users times ptsSeeds
  refine ⟨?_, ?_, ?_, ?_, ?_, ?_⟩
  · intro s
    unfold randint
    omega
  · intro n h
    unfold minaOutcomeAt
    rw [runMina_stateAfter secret seedReq users times ptsSeeds n (by omega),
      process_at_minaStateAfter secret seedReq users times ptsSeeds n h]
  · exact (runMina_completes secret seedReq users times ptsSeeds).2
  · intro k
    exact (runMina_post secret seedReq users times ptsSeeds k).2.1
  · intro k
    exact (runMina_post secret seedReq users times ptsSeeds k).1
  · rw [(runMina_completes secret seedReq users times ptsSeeds).1]
    rfl

/-- Witness for C3: a run with secret "ABCDE" and `R = 3`; the second
attempt yields progress with remaining 1 and the masked secret "AB???",
the third yields the payout award. -/
theorem c3_counter_run_witness :
    minaOutcomeAt "ABCDE".toList 2 (fun i => i + 10) (fun i => i + 100)
        (fun _ => 4) 1 =
      ⟨none, some ⟨2, 1, "AB???".toList⟩⟩ ∧
    minaOutcomeAt "ABCDE".toList 2 (fun i => i + 10) (fun i => i + 100)
        (fun _ => 4) 2 =
      ⟨some ⟨12, "Pole Mina", (5 : ℚ)⟩, none⟩ := by
  constructor
  · rw [(c3_counter_run "ABCDE".toList 2 (fun i => i + 10) (fun i => i + 100)
      (fun _ => 4)).2.1 1 (by decide)]
    decide
  · have h := (c3_counter_run "ABCDE".toList 2 (fun i => i + 10) (fun i => i + 100)
      (fun _ => 4)).2.2.1
    rw [show (randint 1 10 2 - 1) = 2 from by decide] at h
    rw [h]
    decide

/-- C4 (counterexample): with required count 1, the first attempt is
processed while the puzzle is not completed (the counter does not even
exist yet), yet it reveals nothing: the revealed set stays empty instead
of gaining the lowest-index position 0, contradicting the claim that
every attempt processed while not completed reveals a position. -/
theorem c4_counterexample :
    (runMina "AB".toList 0 (fun _ => 7) (fun _ => 8) (fun _ => 9) 0).counter =
      none ∧
    (runMina "AB".toList 0 (fun _ => 7) (fun _ => 8) (fun _ => 9) 1).mina =
      some ⟨"AB".toList, 1, []⟩ ∧
    ([] : List Nat) ≠ [0] := by
  refine ⟨rfl, ?_, by decide⟩
  show (process_counter_based_pole "AB".toList 0 9 7 8 ⟨none, none, []⟩).1.mina = _
  rw [process_award_eq _ _ _ _ _ _ (by decide)]
  rfl

/-- C4 (amended): an attempt reveals exactly the lowest-index unrevealed
position of the secret when (and only when) it returns a progress
message — the completing attempt reveals nothing — and the reveal is a
no-op once every position is revealed; consequently the revealed set is
always the left-to-right initial segment of the secret's indices, grows
by at most one position per attempt and never shrinks. -/
theorem c4_amended :
    ∀ (secret : List Char) (seedReq ptsSeed u ts : Nat) (st : MinaState),
      RevealInv st →
      RevealInv (process_counter_based_pole secret seedReq ptsSeed u ts st).1 ∧
      (minaRevealed st).length ≤
        (minaRevealed
          (process_counter_based_pole secret seedReq ptsSeed u ts st).1).length ∧
      (minaRevealed
          (process_counter_based_pole secret seedReq ptsSeed u ts st).1).length ≤
        (minaRevealed st).length + 1 ∧
      ((process_counter_based_pole secret seedReq ptsSeed u ts st).2.message =
          none →
        minaRevealed (process_counter_based_pole secret seedReq ptsSeed u ts st).1 =
          (get_or_create_daily_info secret seedReq st.mina).revealed_positions) ∧
      ((process_counter_based_pole secret seedReq ptsSeed u ts st).2.message ≠
          none →
        minaRevealed (process_counter_based_pole secret seedReq ptsSeed u ts st).1 =
          List.range (min
            ((get_or_create_daily_info secret seedReq st.mina).revealed_positions.length + 1)
            (get_or_create_daily_info secret seedReq st.mina).random_string.length)) := by
  intro secret seedReq ptsSeed u ts st hinv
  have hdoc : (get_or_create_daily_info secret seedReq st.mina).revealed_positions =
      List.range
        (get_or_create_daily_info secret seedReq st.mina).revealed_positions.length ∧
      (get_or_create_daily_info secret seedReq st.mina).revealed_positions.length ≤
      (get_or_create_daily_info secret seedReq st.mina).random_string.length := by
    cases hm : st.mina with
    | some m =>
      have := hinv m hm
      simp only [get_or_create_daily_info, hm]
      exact this
    | none =>
      simp only [get_or_create_daily_info, hm]
      exact ⟨rfl, Nat.zero_le _⟩
  have hrev : reveal_character (get_or_create_daily_info secret seedReq st.mina) =
      ⟨(get_or_create_daily_info secret seedReq st.mina).random_string,
       (get_or_create_daily_info secret seedReq st.mina).required_count,
       List.range (min
         ((get_or_create_daily_info secret seedReq st.mina).revealed_positions.length + 1)
         (get_or_create_daily_info secret seedReq st.mina).random_string.length)⟩ := by
    conv_lhs =>
      rw [show get_or_create_daily_info secret seedReq st.mina =
        ⟨(get_or_create_daily_info secret seedReq st.mina).random_string,
         (get_or_create_daily_info secret seedReq st.mina).required_count,
         (get_or_create_daily_info secret seedReq st.mina).revealed_positions⟩
        from rfl, hdoc.1]
    exact reveal_range _ _ _ hdoc.2
  have hlen : (minaRevealed st).length =
      (get_or_create_daily_info secret seedReq st.mina).revealed_positions.length := by
    cases hm : st.mina with
    | some m => simp only [minaRevealed, get_or_create_daily_info, hm]
    | none => simp only [minaRevealed, get_or_create_daily_info, hm]
  by_cases hcond : ((track_attempt st.counter u ts).count ==
      (get_or_create_daily_info secret seedReq st.mina).required_count &&
      !(track_attempt st.counter u ts).completed) = true
  · rw [process_award_eq secret seedReq ptsSeed u ts st hcond]
    refine ⟨?_, ?_, ?_, ?_, ?_⟩
    · intro m hm
      injection hm with hm
      rw [← hm]
      exact hdoc
    · rw [hlen, minaRevealed_update]
    · rw [hlen, minaRevealed_update]
      omega
    · intro _
      rw [minaRevealed_update]
    · intro hmsg
      exact absurd rfl hmsg
  · rw [process_progress_eq secret seedReq ptsSeed u ts st
      (by rw [Bool.eq_false_iff]; exact hcond)]
    refine ⟨?_, ?_, ?_, ?_, ?_⟩
    · intro m hm
      injection hm with hm
      rw [← hm, hrev]
      constructor
      · simp
      · simp
    · rw [hlen, minaRevealed_update, hrev]
      simp only [List.length_range]
      omega
    · rw [hlen, minaRevealed_update, hrev]
      simp only [List.length_range]
      omega
    · intro hmsg
      cases hmsg
    · intro _
      rw [minaRevealed_update, hrev]

/-- Witness for C4 (amended) at a concrete mid-puzzle state: one attempt
of a secret "AB" puzzle with required count 3 and one revealed position
extends the revealed segment to both positions. -/
theorem c4_amended_witness :
    RevealInv ⟨some ⟨1, [], false⟩, some ⟨"AB".toList, 3, [0]⟩, []⟩ ∧
    minaRevealed (process_counter_based_pole "AB".toList 0 0 5 6
        ⟨some ⟨1, [], false⟩, some ⟨"AB".toList, 3, [0]⟩, []⟩).1 =
      List.range (min
        ((get_or_create_daily_info "AB".toList 0
          (some ⟨"AB".toList, 3, [0]⟩)).revealed_positions.length + 1)
        (get_or_create_daily_info "AB".toList 0
          (some ⟨"AB".toList, 3, [0]⟩)).random_string.length) := by
  have hinv : RevealInv ⟨some ⟨1, [], false⟩, some ⟨"AB".toList, 3, [0]⟩, []⟩ := by
    intro m hm
    injection hm with hm
    rw [← hm]
    exact ⟨by decide, by decide⟩
  refine ⟨hinv, ?_⟩
  exact (c4_amended "AB".toList 0 0 5 6
    ⟨some ⟨1, [], false⟩, some ⟨"AB".toList, 3, [0]⟩, []⟩ hinv).2.2.2.2
    (by rw [process_progress_eq _ _ _ _ _ _ (by decide)]; exact Option.some_ne_none _)

/-- Inserting a document into a points-sorted list commutes with
filtering by an exact point value: the insertion lands before every
stored document of equal points, so ties keep store order. -/
theorem filter_orderedInsert (x : UserPoleDoc) (p : ℚ) :
    ∀ l : List UserPoleDoc,
      (List.orderedInsert byPointsDesc x l).filter
          (fun d => d.total_points == p) =
        if x.total_points == p then
          x :: l.filter (fun d => d.total_points == p)
        else l.filter (fun d => d.total_points == p) := by
  intro l
  induction l with
  | nil =>
    by_cases hx : (x.total_points == p) = true <;>
      simp [List.orderedInsert, hx]
  | cons b l ih =>
    by_cases hxb : byPointsDesc x b
    · rw [List.orderedInsert, if_pos hxb]
      by_cases hx : (x.total_points == p) = true <;>
        simp [List.filter_cons, hx]
    · rw [List.orderedInsert, if_neg hxb]
      by_cases hb : (b.total_points == p) = true
      · have hxp : ¬ (x.total_points == p) = true := by
          intro hxe
          rw [beq_iff_eq] at hxe hb
          exact hxb (le_of_eq (hb.trans hxe.symm))
        simp [List.filter_cons, hb, hxp, ih]
      · by_cases hx : (x.total_points == p) = true <;>
          simp [List.filter_cons, hb, hx, ih]

/-- C7 (counterexample): with two equal-point documents where the
earlier-stored one has the later update time, `get_ranking` returns the
storage order while the claimed earliest-update tie-break demands the
other order, so the claim fails on the code at this input. -/
theorem c7_counterexample :
    get_ranking [⟨1, 5, 10⟩, ⟨2, 5, 3⟩] 10 = [(1, 5), (2, 5)] ∧
    rank_spec [⟨1, 5, 10⟩, ⟨2, 5, 3⟩] 10 = [(2, 5), (1, 5)] ∧
    get_ranking [⟨1, 5, 10⟩, ⟨2, 5, 3⟩] 10 ≠
      rank_spec [⟨1, 5, 10⟩, ⟨2, 5, 3⟩] 10 := by
  exact ⟨by decide, by decide, by decide⟩

/-- C7 (amended): `topN` returns (user, totalPoints) ordered descending
by points, truncated to `n`; exact-point ties are not broken by any
update time — the sort key is `total_points` alone and equal-point
documents keep the store's document order (the sort is stable), as shown
by the filter identity for every exact point value. -/
theorem c7_amended :
    ∀ (docs : List UserPoleDoc) (limit : Nat),
      List.Pairwise (fun a b : Nat × ℚ => b.2 ≤ a.2) (get_ranking docs limit) ∧
      (List.insertionSort byPointsDesc docs).Perm docs ∧
      (∀ p : ℚ,
        (List.insertionSort byPointsDesc docs).filter
            (fun d => d.total_points == p) =
          docs.filter (fun d => d.total_points == p)) := by
  intro docs limit
  refine ⟨?_, List.perm_insertionSort _ _, ?_⟩
  · have hsorted : List.Sorted byPointsDesc (List.insertionSort byPointsDesc docs) :=
      List.sorted_insertionSort byPointsDesc docs
    have htake : List.Pairwise byPointsDesc
        ((List.insertionSort byPointsDesc docs).take limit) :=
      hsorted.sublist (List.take_sublist _ _)
    exact List.Pairwise.map (fun d : UserPoleDoc => (d.user_id, d.total_points))
      (fun a b h => h) htake
  · intro p
    induction docs with
    | nil => rfl
    | cons d ds ih =>
      rw [show List.insertionSort byPointsDesc (d :: ds) =
        List.orderedInsert byPointsDesc d (List.insertionSort byPointsDesc ds)
        from rfl]
      rw [filter_orderedInsert, ih]
      by_cases hd : (d.total_points == p) = true <;>
        simp [List.filter_cons, hd]

/-- C8 (counterexample): persistence faults are swallowed, not surfaced:
a faulted existence read is indistinguishable from a successful
"not claimed" read and processing proceeds to award; a faulted create
returns None, the very value returned for an ordinary rejection (here:
already claimed), so no failure result distinct from Rejected exists. -/
theorem c8_counterexample :
    pole_exists_db .err = pole_exists_db (.ok false) ∧
    process_pole_attempt_db .err true "Fracapole" 10 0 7 [] =
      some ⟨7, "Fracapole", 1⟩ ∧
    process_pole_attempt_db (.ok false) false "Fracapole" 10 0 7 [] = none ∧
    process_pole_attempt_db (.ok true) true "Fracapole" 10 0 7 [] = none := by
  exact ⟨rfl, by decide, by decide, by decide⟩

/-- C8 (amended): on a persistence fault the core neither fails loudly
nor stops: a faulted existence read makes processing behave exactly as
if the store had answered "no claim today" (so it proceeds as if the
read had succeeded), and a faulted create makes the whole attempt return
None, the same value as every business rejection — the return type has
no failure alternative. -/
theorem c8_amended :
    ∀ (createOk : Bool) (poleType : String) (hour minute userId : Nat)
      (claimed : List PoleRecord),
      (process_pole_attempt_db .err createOk poleType hour minute userId claimed =
        process_pole_attempt_db (.ok false) createOk poleType hour minute userId
          claimed) ∧
      (∀ existsRes : DbResult Bool,
        process_pole_attempt_db existsRes false poleType hour minute userId
          claimed = none) := by
  intro createOk poleType hour minute userId claimed
  constructor
  · cases h : lookupConfig poleType <;>
      simp [process_pole_attempt_db, h, pole_exists_db]
  · intro existsRes
    cases h : lookupConfig poleType with
    | none => simp [process_pole_attempt_db, h]
    | some cfg =>
      simp only [process_pole_attempt_db, h]
      split_ifs <;> simp_all [pole_create_db]

/-- C9 (counterexample): the reads-then-writes of counter tracking are a
separate `find_one` read followed by an unguarded `$set` write, so the
interleaving read-A read-B write-A write-B of two concurrent attempts on
the same key leaves the counter at 1 with one attempt-log entry lost,
while their sequential execution yields the consistent count 2 — two
racing attempts do not resolve to one consistent counter value. -/
theorem c9_counterexample :
    racyPair 1 100 2 200 none = some ⟨1, [(2, 200)], false⟩ ∧
    seqPair 1 100 2 200 none = some ⟨2, [(1, 100), (2, 200)], false⟩ ∧
    racyPair 1 100 2 200 none ≠ seqPair 1 100 2 200 none := by
  exact ⟨by decide, by decide, by decide⟩

/-- C9 (amended): `track_attempt` is exactly the read phase followed by
the compute phase, with the write phase applied unguarded to the store;
when the per-key operations are serialized (no interleaving), the
counter stays consistent: `n` attempts from the empty store produce
count `n` and the full `n`-entry attempt log. -/
theorem c9_amended :
    (∀ (store : Option CounterDoc) (u ts : Nat),
      track_attempt store u ts = ta_compute (ta_read store) u ts) ∧
    (∀ (users times : Nat → Nat) (n : Nat),
      seqAttempts users times n =
        if n = 0 then none
        else some ⟨n, attemptsUpTo users times n, false⟩) := by
  constructor
  · intro store u ts
    rfl
  · intro users times n
    induction n with
    | zero => rfl
    | succ n ih =>
      show ta_write (seqAttempts users times n) _ _ = _
      rw [ih]
      by_cases hn : n = 0
      · subst hn
        simp [ta_write, ta_read, ta_compute, attemptsUpTo,
          show List.range 1 = [0] from rfl]
      · simp [hn, ta_write, ta_read, ta_compute, attemptsUpTo_succ]

/-- C10: family membership for slot arbitration is decided solely by the
derived start hour (the `start_hour` of a `daily_reset` condition, 0
otherwise): every ordered type gated by a time range derives hour 0; the
midnight daily-reset types also derive hour 0 while the Canarian family
derives hour 1; a record with an ordered config lands in exactly the
family of its derived hour; and concretely, after "Pole" is granted slot
1, "Pole Andaluza" (slot 1, time-range gated, inside its window) is
rejected while "Pole Canaria" (slot 1, family of hour 1) is granted. -/
theorem c10_family_by_start_hour :
    (ALL_POLE_TYPES.all (fun nc =>
      match nc.2.timeCondition with
      | some (.timeRange _ _) => derivedStartHour nc.2 == 0
      | _ => true)) = true ∧
    (lookupConfig "Pole Andaluza").map derivedStartHour = some 0 ∧
    (lookupConfig "Pole").map derivedStartHour = some 0 ∧
    (lookupConfig "Pole Canaria").map derivedStartHour = some 1 ∧
    (∀ (r : PoleRecord) (c : PoleConfig) (o h : Nat),
      lookupConfig r.poleType = some c → c.order = some o →
      (familyPoles [r] h = [(r, o)] ↔ derivedStartHour c = h) ∧
      (familyPoles [r] h = [] ↔ ¬ derivedStartHour c = h)) ∧
    process_pole_attempt "Pole" 0 5 1 ⟨[]⟩ =
      (⟨[⟨1, "Pole", 10⟩]⟩, some ⟨1, "Pole", 10⟩) ∧
    process_pole_attempt "Pole Andaluza" 13 0 2 ⟨[⟨1, "Pole", 10⟩]⟩ =
      (⟨[⟨1, "Pole", 10⟩]⟩, none) ∧
    process_pole_attempt "Pole Canaria" 1 30 2 ⟨[⟨1, "Pole", 10⟩]⟩ =
      (⟨[⟨1, "Pole", 10⟩, ⟨2, "Pole Canaria", 5⟩]⟩, some ⟨2, "Pole Canaria", 5⟩) := by
  refine ⟨by decide, by decide, by decide, by decide, ?_, by decide, by decide, by decide⟩
  intro r c o h hlook ho
  have hsingle := familyPoles_single r c o hlook ho
  by_cases hh : derivedStartHour c = h
  · rw [hsingle, if_pos hh]
    refine ⟨⟨fun _ => hh, fun _ => rfl⟩, ?_, ?_⟩
    · intro hcontra; cases hcontra
    · intro hn; exact absurd hh hn
  · rw [hsingle, if_neg hh]
    refine ⟨⟨?_, ?_⟩, fun _ => hh, fun _ => rfl⟩
    · intro hcontra; cases hcontra
    · intro h1; exact absurd h1 hh

/-- Witness for C10: the general family-membership conjunct applied to
the record of a granted "Pole", which lands in the family of derived
hour 0. -/
theorem c10_family_by_start_hour_witness :
    familyPoles [⟨1, "Pole", 10⟩] 0 = [(⟨1, "Pole", 10⟩, 1)] :=
  ((c10_family_by_start_hour.2.2.2.2.1 ⟨1, "Pole", 10⟩
      { triggers := ["^pole$", "^oro$"], points := 10, order := some 1,
        timeCondition := some (.dailyReset 0) } 1 0
      (by decide) rfl).1).mpr (by decide)

end PoleBot
